import Mathlib

/-!
Verification development for the GCP permissions watchdog
(`watchdog.py`): a git-history walker that extracts a permission set at
each commit, diffs consecutive sets grouped by service namespace, and
folds the commits into a newest-first history of qualifying changes.

The embedding is shallow:

* `PyValue` models the Python values produced by `json.loads`
  (dicts as insertion-ordered association lists, exactly as CPython keeps
  them).
* `json_loads` models `json.loads` on strings: a fuel-based
  recursive-descent parser of the JSON grammar accepted by the CPython
  decoder (strict strings, `NaN`/`Infinity` literals, last-wins duplicate
  object keys).  Non-integer numbers are carried as their raw text, which
  is enough because no downstream code inspects numeric values.  Two known
  approximations, both irrelevant to the theorems below: lone surrogate
  `\uXXXX` escapes degrade to NUL rather than to a surrogate code point,
  and float equality is textual.
* Python sets are modelled as duplicate-free lists in first-insertion
  order; `pySet` models the `set(...)` builtin, raising `TypeError` on
  non-iterable arguments and on unhashable elements, exactly as CPython
  does.  (Cross-type numeric equality such as `True == 1` is not
  modelled.)
* `parse_permissions`, `compute_diff` and the fold of `analyze_repo` are
  translated line by line from the source; fallible Python code returns
  `Except PyErr`.
-/

/-- A Python value as produced by `json.loads`.  `float` carries the raw
numeric literal text. -/
inductive PyValue : Type
  | none : PyValue
  | bool : Bool → PyValue
  | int : Int → PyValue
  | float : String → PyValue
  | str : String → PyValue
  | list : List PyValue → PyValue
  | dict : List (String × PyValue) → PyValue

/-- The one Python exception class our model needs: `TypeError`, raised by
`set(...)` on non-iterable arguments or unhashable elements.  (The only
exception the source catches, `json.JSONDecodeError`, is modelled by the
`Except.error` branch of `json_loads` itself.) -/
inductive PyErr : Type
  | typeError : PyErr
deriving DecidableEq

def lbrace : Char := Char.ofNat 123

def rbrace : Char := Char.ofNat 125

/-- The whitespace characters skipped by the CPython JSON decoder. -/
def jsonWs : List Char := [' ', '\t', '\n', '\r']

def skipWs : List Char → List Char
  | [] => []
  | c :: cs => if c ∈ jsonWs then skipWs cs else c :: cs

def hexVal (c : Char) : Option Nat :=
  if '0' ≤ c ∧ c ≤ '9' then some (c.toNat - '0'.toNat)
  else if 'a' ≤ c ∧ c ≤ 'f' then some (c.toNat - 'a'.toNat + 10)
  else if 'A' ≤ c ∧ c ≤ 'F' then some (c.toNat - 'A'.toNat + 10)
  else none

/-- JSON string body parser (the opening quote already consumed), CPython
strict mode: unescaped control characters are rejected, `\uXXXX` escapes
are decoded with surrogate-pair combination. -/
def parseStrAux : Nat → List Char → List Char → Option (String × List Char)
  | 0, _, _ => Option.none
  | _, _, [] => Option.none
  | fuel + 1, acc, c :: cs =>
    if c = '"' then some (String.mk acc.reverse, cs)
    else if c = '\\' then
      match cs with
      | [] => Option.none
      | e :: cs2 =>
        if e = '"' then parseStrAux fuel ('"' :: acc) cs2
        else if e = '\\' then parseStrAux fuel ('\\' :: acc) cs2
        else if e = '/' then parseStrAux fuel ('/' :: acc) cs2
        else if e = 'b' then parseStrAux fuel ('\x08' :: acc) cs2
        else if e = 'f' then parseStrAux fuel ('\x0c' :: acc) cs2
        else if e = 'n' then parseStrAux fuel ('\n' :: acc) cs2
        else if e = 'r' then parseStrAux fuel ('\r' :: acc) cs2
        else if e = 't' then parseStrAux fuel ('\t' :: acc) cs2
        else if e = 'u' then
          match cs2 with
          | a :: b :: c2 :: d :: cs3 =>
            match hexVal a, hexVal b, hexVal c2, hexVal d with
            | some ha, some hb, some hc, some hd =>
              let n := 4096 * ha + 256 * hb + 16 * hc + hd
              if 0xD800 ≤ n ∧ n ≤ 0xDBFF then
                match cs3 with
                | '\\' :: 'u' :: a2 :: b2 :: c3 :: d2 :: cs4 =>
                  match hexVal a2, hexVal b2, hexVal c3, hexVal d2 with
                  | some ga, some gb, some gc, some gd =>
                    let m := 4096 * ga + 256 * gb + 16 * gc + gd
                    if 0xDC00 ≤ m ∧ m ≤ 0xDFFF then
                      parseStrAux fuel
                        (Char.ofNat (0x10000 + (n - 0xD800) * 1024 + (m - 0xDC00)) :: acc) cs4
                    else
                      parseStrAux fuel (Char.ofNat m :: Char.ofNat n :: acc) cs4
                  | _, _, _, _ => Option.none
                | _ => parseStrAux fuel (Char.ofNat n :: acc) cs3
              else parseStrAux fuel (Char.ofNat n :: acc) cs3
            | _, _, _, _ => Option.none
          | _ => Option.none
        else Option.none
    else if c.toNat < 32 then Option.none
    else parseStrAux fuel (c :: acc) cs

def parseStr (cs : List Char) : Option (String × List Char) :=
  parseStrAux (cs.length + 1) [] cs

def takeDigits : List Char → List Char × List Char
  | [] => ([], [])
  | c :: cs =>
    if c.isDigit then
      let (ds, r) := takeDigits cs
      (c :: ds, r)
    else ([], c :: cs)

def digitsToNat (ds : List Char) : Nat :=
  ds.foldl (fun n c => 10 * n + (c.toNat - '0'.toNat)) 0

/-- Parse the optional fraction part (`.` followed by one or more digits).
Returns the consumed characters and the rest; fails when `.` is present
without digits (in which case the decoder as a whole rejects the input,
matching CPython's verdict though not its exact error position). -/
def parseFracOpt : List Char → Option (List Char × List Char)
  | '.' :: cs =>
    let (ds, r) := takeDigits cs
    if ds = [] then Option.none else some ('.' :: ds, r)
  | cs => some ([], cs)

/-- Parse the optional exponent part (`e`/`E`, optional sign, digits). -/
def parseExpOpt : List Char → Option (List Char × List Char)
  | c :: cs =>
    if c = 'e' ∨ c = 'E' then
      match cs with
      | s :: cs2 =>
        if s = '+' ∨ s = '-' then
          let (ds, r) := takeDigits cs2
          if ds = [] then Option.none else some (c :: s :: ds, r)
        else
          let (ds, r) := takeDigits (s :: cs2)
          if ds = [] then Option.none else some (c :: ds, r)
      | [] => Option.none
    else some ([], c :: cs)
  | [] => some ([], [])

/-- Parse a JSON number after an optional already-consumed minus sign:
`0` or a nonzero-led digit run, then optional fraction and exponent.  A
plain integer becomes `PyValue.int`; anything with a fraction or exponent
becomes `PyValue.float` carrying the raw literal. -/
def parseNumAfterSign (neg : Bool) (cs : List Char) : Option (PyValue × List Char) :=
  match cs with
  | [] => Option.none
  | c :: rest =>
    if ¬ c.isDigit then Option.none
    else if c = '0' ∨ rest = [] ∨ ¬ (rest.headD ' ').isDigit then
      parseNumTail neg [c] rest
    else
      let (ds, rest2) := takeDigits rest
      if c = '0' then Option.none else parseNumTail neg (c :: ds) rest2
where
  parseNumTail (neg : Bool) (intDigits : List Char) (cs : List Char) :
      Option (PyValue × List Char) :=
    match parseFracOpt cs with
    | Option.none => Option.none
    | some (frac, r1) =>
      match parseExpOpt r1 with
      | Option.none => Option.none
      | some (ex, r2) =>
        if frac = [] ∧ ex = [] then
          let v : Int := Int.ofNat (digitsToNat intDigits)
          some (PyValue.int (if neg then -v else v), r2)
        else
          let raw := (if neg then '-' :: intDigits else intDigits) ++ frac ++ ex
          some (PyValue.float (String.mk raw), r2)

/-- CPython dict insertion: an existing key keeps its position but its
value is replaced; a fresh key is appended. -/
def dictInsert (kvs : List (String × PyValue)) (k : String) (v : PyValue) :
    List (String × PyValue) :=
  if kvs.any (fun kv => kv.1 = k) then
    kvs.map (fun kv => if kv.1 = k then (k, v) else kv)
  else kvs ++ [(k, v)]

mutual

/-- Fuel-based JSON value parser: leading whitespace, then one value.
Mirrors the grammar of the CPython decoder, including the `NaN`,
`Infinity` and `-Infinity` extensions it accepts by default. -/
def parseValue : Nat → List Char → Option (PyValue × List Char)
  | 0, _ => Option.none
  | fuel + 1, cs =>
    match skipWs cs with
    | [] => Option.none
    | c :: rest =>
      if c = lbrace then parseObj fuel rest
      else if c = '[' then parseArr fuel rest
      else if c = '"' then
        match parseStr rest with
        | some (s, r) => some (PyValue.str s, r)
        | Option.none => Option.none
      else if c = 't' then
        match rest with
        | 'r' :: 'u' :: 'e' :: r => some (PyValue.bool true, r)
        | _ => Option.none
      else if c = 'f' then
        match rest with
        | 'a' :: 'l' :: 's' :: 'e' :: r => some (PyValue.bool false, r)
        | _ => Option.none
      else if c = 'n' then
        match rest with
        | 'u' :: 'l' :: 'l' :: r => some (PyValue.none, r)
        | _ => Option.none
      else if c = 'N' then
        match rest with
        | 'a' :: 'N' :: r => some (PyValue.float "NaN", r)
        | _ => Option.none
      else if c = 'I' then
        match rest with
        | 'n' :: 'f' :: 'i' :: 'n' :: 'i' :: 't' :: 'y' :: r =>
          some (PyValue.float "Infinity", r)
        | _ => Option.none
      else if c = '-' then
        match rest with
        | 'I' :: 'n' :: 'f' :: 'i' :: 'n' :: 'i' :: 't' :: 'y' :: r =>
          some (PyValue.float "-Infinity", r)
        | _ => parseNumAfterSign true rest
      else parseNumAfterSign false (c :: rest)

/-- Object parser, the opening brace already consumed. -/
def parseObj : Nat → List Char → Option (PyValue × List Char)
  | 0, _ => Option.none
  | fuel + 1, cs =>
    match skipWs cs with
    | [] => Option.none
    | c :: rest =>
      if c = rbrace then some (PyValue.dict [], rest)
      else parseMembers fuel [] (c :: rest)

/-- Object member list parser: `"key" : value` pairs separated by commas,
closed by the closing brace. -/
def parseMembers : Nat → List (String × PyValue) → List Char →
    Option (PyValue × List Char)
  | 0, _, _ => Option.none
  | fuel + 1, acc, cs =>
    match cs with
    | '"' :: r =>
      match parseStr r with
      | some (k, r2) =>
        (match skipWs r2 with
          | ':' :: r3 =>
            (match parseValue fuel r3 with
              | some (v, r4) =>
                let acc2 := dictInsert acc k v
                (match skipWs r4 with
                  | ',' :: r5 => parseMembers fuel acc2 (skipWs r5)
                  | c :: r5 =>
                    if c = rbrace then some (PyValue.dict acc2, r5) else Option.none
                  | [] => Option.none)
              | Option.none => Option.none)
          | _ => Option.none)
      | Option.none => Option.none
    | _ => Option.none

/-- Array parser, the opening bracket already consumed. -/
def parseArr : Nat → List Char → Option (PyValue × List Char)
  | 0, _ => Option.none
  | fuel + 1, cs =>
    match skipWs cs with
    | ']' :: r => some (PyValue.list [], r)
    | cs2 => parseElems fuel [] cs2

/-- Array element list parser. -/
def parseElems : Nat → List PyValue → List Char → Option (PyValue × List Char)
  | 0, _, _ => Option.none
  | fuel + 1, acc, cs =>
    match parseValue fuel cs with
    | some (v, r) =>
      (match skipWs r with
        | ',' :: r2 => parseElems fuel (acc ++ [v]) r2
        | ']' :: r2 => some (PyValue.list (acc ++ [v]), r2)
        | _ => Option.none)
    | Option.none => Option.none

end

/-- Model of `json.loads` on a string: parse exactly one JSON value with
nothing but whitespace around it; every failure is `json.JSONDecodeError`,
the one exception class the source catches. -/
def json_loads (s : String) : Except Unit PyValue :=
  match parseValue (3 * s.length + 16) s.data with
  | some (v, rest) => if skipWs rest = [] then Except.ok v else Except.error ()
  | Option.none => Except.error ()

/-- Equality as used by Python set membership, restricted to the hashable
scalar values that can actually enter a set in this program.  (Unhashable
lists/dicts never get inserted — `pySet` raises `TypeError` first — and
CPython's cross-type numeric equality `True == 1` is not modelled.) -/
def pyEq : PyValue → PyValue → Bool
  | PyValue.none, PyValue.none => true
  | PyValue.bool a, PyValue.bool b => a == b
  | PyValue.int a, PyValue.int b => a == b
  | PyValue.float a, PyValue.float b => a == b
  | PyValue.str a, PyValue.str b => a == b
  | _, _ => false

/-- A Python set is modelled as a duplicate-free list in first-insertion
order; inserting a present element is a no-op. -/
def pyInsert (l : List PyValue) (x : PyValue) : List PyValue :=
  if l.any (fun y => pyEq x y) then l else l ++ [x]

def pySetOfList (xs : List PyValue) : List PyValue :=
  xs.foldl pyInsert []

def pyHashable : PyValue → Bool
  | PyValue.list _ => false
  | PyValue.dict _ => false
  | _ => true

/-- Model of the `set(...)` builtin on a `PyValue`: strings yield their
characters, dicts their keys, lists their (hashable) elements; every
other value is not iterable and raises `TypeError`, as does a list with
an unhashable element. -/
def pySet : PyValue → Except PyErr (List PyValue)
  | PyValue.str s =>
    Except.ok (pySetOfList (s.data.map (fun c => PyValue.str (String.mk [c]))))
  | PyValue.dict kvs => Except.ok (pySetOfList (kvs.map (fun kv => PyValue.str kv.1)))
  | PyValue.list xs =>
    if xs.all pyHashable then Except.ok (pySetOfList xs) else Except.error PyErr.typeError
  | _ => Except.error PyErr.typeError

/-- The line-break characters recognised by `str.splitlines`. -/
def pyLineBreaks : List Char :=
  ['\n', '\r', '\x0b', '\x0c', '\x1c', '\x1d', '\x1e', '\x85', '\u2028', '\u2029']

def splitlinesAux : List Char → List Char → List String
  | acc, [] => if acc = [] then [] else [String.mk acc.reverse]
  | acc, '\r' :: '\n' :: rest => String.mk acc.reverse :: splitlinesAux [] rest
  | acc, c :: rest =>
    if c ∈ pyLineBreaks then String.mk acc.reverse :: splitlinesAux [] rest
    else splitlinesAux (c :: acc) rest

/-- Model of `str.splitlines`: split on any recognised line break, `\r\n`
counting as one, with no trailing empty line. -/
def py_splitlines (s : String) : List String :=
  splitlinesAux [] s.data

/-- The characters stripped by no-argument `str.strip` (those for which
`str.isspace` holds). -/
def pyIsSpace (c : Char) : Bool :=
  c ∈ [' ', '\t', '\n', '\r', '\x0b', '\x0c', '\x1c', '\x1d', '\x1e', '\x1f',
    '\x85', '\xa0', '\u1680', '\u2000', '\u2001', '\u2002', '\u2003', '\u2004',
    '\u2005', '\u2006', '\u2007', '\u2008', '\u2009', '\u200a', '\u2028',
    '\u2029', '\u202f', '\u205f', '\u3000']

/-- Model of no-argument `str.strip`. -/
def py_strip (s : String) : String :=
  String.mk (((s.data.dropWhile pyIsSpace).reverse.dropWhile pyIsSpace).reverse)

/-- The line-based fallback of `parse_permissions`:
`set([line.strip() for line in content.splitlines() if line.strip()])`. -/
def linesFallback (content : String) : List PyValue :=
  pySetOfList
    ((((py_splitlines content).map py_strip).filter (fun l => ¬ l = "")).map PyValue.str)

/-- Whether a `PyValue` is a Python `list` (`isinstance(val, list)`). -/
def isPyList : PyValue → Bool
  | PyValue.list _ => true
  | _ => false

/-- Embedding of `parse_permissions` (watchdog.py lines 32-55).  `content`
is the result of `get_file_content`: `Option.none` models Python `None`.
Falsy content (None or the empty string) yields the empty set; otherwise
the content is handed to `json.loads`; a dict answers from
`valid_permissions`, then `permissions`, then its first list-valued field
in key order; a list is converted to a set; any other parsed value falls
through to `return set()`; only a `JSONDecodeError` triggers the
line-based fallback.  A `TypeError` raised by `set(...)` propagates. -/
def parse_permissions (content : Option String) : Except PyErr (List PyValue) :=
  match content with
  | Option.none => Except.ok []
  | some s =>
    if s = "" then Except.ok []
    else
      match json_loads s with
      | Except.ok (PyValue.dict kvs) =>
        (match kvs.lookup "valid_permissions" with
          | some v => pySet v
          | Option.none =>
            match kvs.lookup "permissions" with
            | some v => pySet v
            | Option.none =>
              match kvs.find? (fun kv => isPyList kv.2) with
              | some kv => pySet kv.2
              | Option.none => Except.ok [])
      | Except.ok (PyValue.list xs) => pySet (PyValue.list xs)
      | Except.ok _ => Except.ok []
      | Except.error _ => Except.ok (linesFallback s)

/-- Lexicographic comparison of character lists by code point — the
string ordering Python's `sorted` uses. -/
def charsLeB : List Char → List Char → Bool
  | [], _ => true
  | _ :: _, [] => false
  | a :: as, b :: bs =>
    if a.toNat < b.toNat then true
    else if b.toNat < a.toNat then false
    else charsLeB as bs

/-- Python's string ordering, as a relation on `String`. -/
def pyStrLe (a b : String) : Prop := charsLeB a.data b.data = true

instance : DecidableRel pyStrLe := fun a b =>
  inferInstanceAs (Decidable (charsLeB a.data b.data = true))

theorem char_eq_of_toNat_eq {a b : Char} (h : a.toNat = b.toNat) : a = b := by
  have h2 := congrArg Char.ofNat h
  rwa [Char.ofNat_toNat, Char.ofNat_toNat] at h2

theorem string_eq_of_data_eq {a b : String} (h : a.data = b.data) : a = b := by
  cases a; cases b; exact congrArg String.mk h

theorem charsLeB_total (a b : List Char) : charsLeB a b = true ∨ charsLeB b a = true := by
  induction a generalizing b with
  | nil => left; rfl
  | cons x xs ih =>
    cases b with
    | nil => right; rfl
    | cons y ys =>
      simp only [charsLeB]
      rcases Nat.lt_trichotomy x.toNat y.toNat with h | h | h
      · left; simp [h]
      · rcases ih ys with h2 | h2
        · left; simp [h, h2]
        · right; simp [h.symm, h2]
      · right; simp [h]

theorem charsLeB_trans (a b c : List Char) (h1 : charsLeB a b = true)
    (h2 : charsLeB b c = true) : charsLeB a c = true := by
  induction a generalizing b c with
  | nil => rfl
  | cons x xs ih =>
    cases b with
    | nil => simp [charsLeB] at h1
    | cons y ys =>
      cases c with
      | nil => simp [charsLeB] at h2
      | cons z zs =>
        simp only [charsLeB] at h1 h2 ⊢
        split_ifs at h1 h2 ⊢ <;>
          first
            | rfl
            | (exfalso; omega)
            | (exact ih ys zs h1 h2)

theorem charsLeB_antisymm (a b : List Char) (h1 : charsLeB a b = true)
    (h2 : charsLeB b a = true) : a = b := by
  induction a generalizing b with
  | nil =>
    cases b with
    | nil => rfl
    | cons y ys => simp [charsLeB] at h2
  | cons x xs ih =>
    cases b with
    | nil => simp [charsLeB] at h1
    | cons y ys =>
      simp only [charsLeB] at h1 h2
      split_ifs at h1 h2 <;>
        first
          | (exfalso; omega)
          | (have hxy : x = y := char_eq_of_toNat_eq (by omega)
             rw [hxy, ih ys h1 h2])

instance : IsTotal String pyStrLe := ⟨fun a b => charsLeB_total a.data b.data⟩

instance : IsTrans String pyStrLe := ⟨fun a b c => charsLeB_trans a.data b.data c.data⟩

instance : IsAntisymm String pyStrLe :=
  ⟨fun a b h1 h2 => string_eq_of_data_eq (charsLeB_antisymm a.data b.data h1 h2)⟩

/-- Model of Python's `sorted` on a multiset of strings: the unique
ascending enumeration, computed by insertion sort (well-defined because
the order is total, transitive and antisymmetric). -/
def msortAsc (m : Multiset String) : List String :=
  Quot.liftOn m (fun l => l.insertionSort pyStrLe)
    (fun _ _ h =>
      List.eq_of_perm_of_sorted
        ((List.perm_insertionSort _ _).trans (h.trans (List.perm_insertionSort _ _).symm))
        (List.sorted_insertionSort _ _) (List.sorted_insertionSort _ _))

/-- The ascending enumeration of a finite set of strings. -/
def sortedAsc (s : Finset String) : List String := msortAsc s.1

/-- The grouping key of `compute_diff`: `p.split('.')[0]`, i.e. the
characters before the first dot, or the whole string when there is no
dot.  (The guard `len(parts) >= 1` in the source is vacuous: `str.split`
never returns an empty list.) -/
def service (p : String) : String :=
  String.mk (p.data.takeWhile (fun c => ¬ c = '.'))

/-- Python's `'.' in p`. -/
def hasDot (p : String) : Bool := p.data.contains '.'

/-- The two grouped mappings produced by `compute_diff`, each an ordered
association list from service namespace to a sorted list of permissions. -/
structure Diff : Type where
  added : List (String × List String)
  removed : List (String × List String)
deriving DecidableEq

/-- Embedding of the inner `group_by_service` of `compute_diff`
(watchdog.py lines 62-72): group a permission set by service, keys sorted
ascending and each bucket sorted ascending.  The Python code builds the
buckets by iterating the set in unspecified order and then sorts both
levels, so the result depends only on the set; the embedding produces it
directly from the sorted key set. -/
def group_by_service (perms : Finset String) : List (String × List String) :=
  (sortedAsc (perms.image service)).map
    (fun k => (k, sortedAsc (perms.filter (fun p => service p = k))))

/-- Embedding of `compute_diff` (watchdog.py lines 57-77) on permission
sets (sets of strings, per the data model — on a set containing a
non-string, the Python original would raise before producing a value). -/
def compute_diff (prev_perms curr_perms : Finset String) : Diff :=
  { added := group_by_service (curr_perms \ prev_perms)
    removed := group_by_service (prev_perms \ curr_perms) }

/-- A commit as seen by `analyze_repo`: the git metadata plus `perms`,
the extracted permission set
`parse_permissions(get_file_content(commit, file_pattern))` for that
commit — content resolution itself is external git I/O (the Content
Resolver), so the fold is embedded over the per-commit extracted sets.
`committed_date` is the integer Unix timestamp; `datetime.fromtimestamp`
is modelled as the identity on it. -/
structure Commit : Type where
  hexsha : String
  author : String
  committed_date : Int
  message : String
  perms : Finset String
deriving DecidableEq

/-- One emitted history entry (the `commit_data` dict of watchdog.py
lines 113-125). -/
structure HistoryRecord : Type where
  hash : String
  author : String
  date : Int
  message : String
  total_permissions : Nat
  service_count : Nat
  added_count : Nat
  removed_count : Nat
  diff : Diff
deriving DecidableEq

/-- Builds `commit_data` for a commit against the carried previous set:
stats are the current set's size, the number of distinct services among
dotted permissions, and the bucket-size sums of the diff's two mappings. -/
def commit_record (prev_perms : Finset String) (c : Commit) : HistoryRecord :=
  let d := compute_diff prev_perms c.perms
  let all_services := (c.perms.filter (fun p => hasDot p = true)).image service
  { hash := c.hexsha
    author := c.author
    date := c.committed_date
    message := py_strip c.message
    total_permissions := c.perms.card
    service_count := all_services.card
    added_count := (d.added.map (fun kl => kl.2.length)).sum
    removed_count := (d.removed.map (fun kl => kl.2.length)).sum
    diff := d }

def charsLeadWith : List Char → List Char → Bool
  | [], _ => true
  | _ :: _, [] => false
  | a :: as, b :: bs => a == b && charsLeadWith as bs

def charsContain : List Char → List Char → Bool
  | needle, [] => charsLeadWith needle []
  | needle, c :: cs => charsLeadWith needle (c :: cs) || charsContain needle cs

/-- Python's `needle in haystack` on strings: `needle` occurs as a
contiguous substring of `haystack`. -/
def py_in (needle haystack : String) : Bool :=
  charsContain needle.data haystack.data

/-- `"Auto-update" in commit.message` (case-sensitive substring test). -/
def is_auto_update (msg : String) : Bool :=
  py_in "Auto-update" msg

/-- `"release" in commit.message.lower()`.  `str.lower` is modelled with
`Char.toLower` per character, which agrees with Python on ASCII. -/
def is_release (msg : String) : Bool :=
  py_in "release" (String.mk (msg.data.map Char.toLower))

/-- The state carried by the commit loop of `analyze_repo`: the previous
permission set and the history list built so far (oldest first). -/
structure FoldState : Type where
  prev : Finset String
  history : List HistoryRecord
deriving DecidableEq

/-- `has_changes` (watchdog.py line 133): the diff has a non-empty added
or removed mapping. -/
def has_changes (prev_perms curr_perms : Finset String) : Prop :=
  (compute_diff prev_perms curr_perms).added ≠ [] ∨
    (compute_diff prev_perms curr_perms).removed ≠ []

instance (prev_perms curr_perms : Finset String) :
    Decidable (has_changes prev_perms curr_perms) := by
  unfold has_changes; infer_instance

/-- The body of the commit loop of `analyze_repo` (watchdog.py lines
102-178): the outer `curr_perms != prev_perms or not history` guard, the
`has_changes or (not prev_perms and curr_perms)` check, the strict
message filter, and — regardless of qualification — the
`prev_perms = curr_perms` baseline advance. -/
def analyze_step (st : FoldState) (c : Commit) : FoldState :=
  let curr := c.perms
  let history1 :=
    if curr ≠ st.prev ∨ st.history = [] then
      if has_changes st.prev curr ∨ (st.prev = ∅ ∧ curr ≠ ∅) then
        if is_auto_update c.message = true ∨ is_release c.message = true ∨
            (has_changes st.prev curr ∧ st.history.length < 1) then
          st.history ++ [commit_record st.prev c]
        else st.history
      else st.history
    else st.history
  { prev := curr, history := history1 }

/-- The initial loop state: `prev_perms = set()`, `history = []`. -/
def init_state : FoldState := { prev := ∅, history := [] }

/-- Embedding of the history construction of `analyze_repo` (watchdog.py
lines 90-183).  `commits` is the list produced by `repo.iter_commits()`,
newest first; the function reverses it to walk oldest-to-newest, folds
the loop body over it, and reverses the accumulated history back to
newest first.  (The repository validity checks on lines 80-88 concern the
external git collaborator and return an empty history, not touching the
fold.) -/
def analyze_repo (commits : List Commit) : List HistoryRecord :=
  (((commits.reverse).foldl analyze_step init_state).history).reverse

/-- Demonstration commit 1 of the spec's bootstrap scenario: no tracked
file, so the extracted permission set is empty. -/
def c1demo : Commit :=
  { hexsha := "c1", author := "alice", committed_date := 100,
    message := "init", perms := ∅ }

/-- Demonstration commit 2 of the spec's bootstrap scenario: introduces
two storage permissions under a message containing neither marker. -/
def c2demo : Commit :=
  { hexsha := "c2", author := "bob", committed_date := 200,
    message := "update docs",
    perms := {"storage.buckets.get", "storage.buckets.list"} }

theorem mem_msortAsc (a : String) (m : Multiset String) : a ∈ msortAsc m ↔ a ∈ m := by
  induction m using Quotient.inductionOn with
  | h l => exact (List.perm_insertionSort _ l).mem_iff

theorem nodup_msortAsc (m : Multiset String) (hm : m.Nodup) : (msortAsc m).Nodup := by
  induction m using Quotient.inductionOn with
  | h l => exact ((List.perm_insertionSort _ l).nodup_iff).2 hm

theorem length_msortAsc (m : Multiset String) : (msortAsc m).length = Multiset.card m := by
  induction m using Quotient.inductionOn with
  | h l => exact (List.perm_insertionSort _ l).length_eq

theorem mem_sortedAsc (a : String) (s : Finset String) : a ∈ sortedAsc s ↔ a ∈ s :=
  mem_msortAsc a s.1

theorem nodup_sortedAsc (s : Finset String) : (sortedAsc s).Nodup :=
  nodup_msortAsc s.1 s.2

theorem length_sortedAsc (s : Finset String) : (sortedAsc s).length = s.card :=
  length_msortAsc s.1

theorem sortedAsc_eq_nil_iff (s : Finset String) : sortedAsc s = [] ↔ s = ∅ := by
  constructor
  · intro h
    have hl := length_sortedAsc s
    rw [h] at hl
    exact Finset.card_eq_zero.mp hl.symm
  · rintro rfl
    have hl := length_sortedAsc (∅ : Finset String)
    simpa using List.length_eq_zero.mp (by simpa using hl)

theorem mem_group_by_service_iff (S : Finset String) (k : String) (l : List String) :
    (k, l) ∈ group_by_service S ↔
      k ∈ S.image service ∧ l = sortedAsc (S.filter (fun p => service p = k)) := by
  unfold group_by_service
  rw [List.mem_map]
  constructor
  · rintro ⟨a, ha, heq⟩
    obtain ⟨rfl, rfl⟩ : a = k ∧ sortedAsc (S.filter (fun p => service p = a)) = l := by
      exact ⟨congrArg Prod.fst heq, congrArg Prod.snd heq⟩
    exact ⟨(mem_sortedAsc a (S.image service)).1 ha, rfl⟩
  · rintro ⟨hk, rfl⟩
    exact ⟨k, (mem_sortedAsc k (S.image service)).2 hk, rfl⟩

theorem mem_bucket_iff (S : Finset String) (k : String) (l : List String) (p : String)
    (h : (k, l) ∈ group_by_service S) : p ∈ l ↔ p ∈ S ∧ service p = k := by
  obtain ⟨-, rfl⟩ := (mem_group_by_service_iff S k l).1 h
  rw [mem_sortedAsc, Finset.mem_filter]

theorem group_by_service_eq_nil_iff (S : Finset String) :
    group_by_service S = [] ↔ S = ∅ := by
  unfold group_by_service
  rw [List.map_eq_nil_iff, sortedAsc_eq_nil_iff, Finset.image_eq_empty]

theorem has_changes_iff (prev curr : Finset String) :
    has_changes prev curr ↔ ¬ curr = prev := by
  unfold has_changes compute_diff
  simp only []
  constructor
  · rintro (h | h) rfl
    · exact h ((group_by_service_eq_nil_iff _).2 (Finset.sdiff_self curr))
    · exact h ((group_by_service_eq_nil_iff _).2 (Finset.sdiff_self curr))
  · intro hne
    by_contra hcon
    push_neg at hcon
    obtain ⟨h1, h2⟩ := hcon
    have e1 : curr \ prev = ∅ := (group_by_service_eq_nil_iff _).1 h1
    have e2 : prev \ curr = ∅ := (group_by_service_eq_nil_iff _).1 h2
    exact hne (Finset.Subset.antisymm
      (Finset.sdiff_eq_empty_iff_subset.mp e1) (Finset.sdiff_eq_empty_iff_subset.mp e2))

theorem history_append_ne (l : List HistoryRecord) (r : HistoryRecord) :
    ¬ l ++ [r] = l := by
  intro h
  have hl := congrArg List.length h
  simp at hl

theorem analyze_step_prev_eq (st : FoldState) (c : Commit) :
    (analyze_step st c).prev = c.perms := rfl

theorem analyze_step_history_shape (st : FoldState) (c : Commit) :
    (analyze_step st c).history = st.history ∨
      (analyze_step st c).history = st.history ++ [commit_record st.prev c] := by
  simp only [analyze_step]
  split_ifs <;> simp

theorem hchg_of_cond2 (st : FoldState) (c : Commit)
    (h2 : has_changes st.prev c.perms ∨ st.prev = ∅ ∧ c.perms ≠ ∅) :
    has_changes st.prev c.perms := by
  rcases h2 with hc | ⟨hp, hcne⟩
  · exact hc
  · refine (has_changes_iff _ _).2 fun he => hcne ?_
    rw [he, hp]

theorem analyze_step_emits_iff_aux (st : FoldState) (c : Commit) :
    (analyze_step st c).history = st.history ++ [commit_record st.prev c] ↔
      has_changes st.prev c.perms ∧
        (is_auto_update c.message = true ∨ is_release c.message = true ∨
          st.history = []) := by
  simp only [analyze_step]
  split_ifs with h1 h2 h3
  · simp only [eq_self_iff_true, true_iff]
    refine ⟨hchg_of_cond2 st c h2, ?_⟩
    rcases h3 with h | h | ⟨-, hlen⟩
    · exact Or.inl h
    · exact Or.inr (Or.inl h)
    · exact Or.inr (Or.inr (List.length_eq_zero.mp (Nat.lt_one_iff.mp hlen)))
  · constructor
    · intro h; exact absurd h.symm (history_append_ne _ _)
    · rintro ⟨hc, hm⟩
      exfalso; apply h3
      rcases hm with h | h | h
      · exact Or.inl h
      · exact Or.inr (Or.inl h)
      · exact Or.inr (Or.inr ⟨hc, by rw [h]; exact Nat.zero_lt_one⟩)
  · constructor
    · intro h; exact absurd h.symm (history_append_ne _ _)
    · rintro ⟨hc, -⟩
      exact absurd (Or.inl hc) h2
  · constructor
    · intro h; exact absurd h.symm (history_append_ne _ _)
    · rintro ⟨hc, -⟩
      exact absurd (Or.inl ((has_changes_iff _ _).1 hc)) h1

theorem has_changes_empty_empty :
    ¬ has_changes (∅ : Finset String) (∅ : Finset String) := by
  rw [has_changes_iff]
  simp

theorem analyze_step_empty_perms (c : Commit) (hc : c.perms = ∅) :
    analyze_step init_state c = init_state := by
  simp [analyze_step, init_state, hc, has_changes_empty_empty]

theorem fold_empty_perms (cs : List Commit) (h : ∀ x ∈ cs, x.perms = ∅) :
    cs.foldl analyze_step init_state = init_state := by
  induction cs with
  | nil => rfl
  | cons c cs ih =>
    rw [List.foldl_cons, analyze_step_empty_perms c (h c (List.mem_cons_self c cs))]
    exact ih fun x hx => h x (List.mem_cons_of_mem c hx)

theorem analyze_step_bootstrap (c : Commit) (hc : ¬ c.perms = ∅) :
    analyze_step init_state c = { prev := c.perms, history := [commit_record ∅ c] } := by
  have hchg : has_changes (∅ : Finset String) c.perms := by
    rw [has_changes_iff]
    simpa using hc
  simp [analyze_step, init_state, hchg, hc]

theorem bootstrap_general (rest : List Commit) (c : Commit)
    (hrest : ∀ x ∈ rest, x.perms = ∅) (hc : ¬ c.perms = ∅) :
    analyze_repo (c :: rest) = [commit_record ∅ c] := by
  unfold analyze_repo
  rw [List.reverse_cons, List.foldl_append, fold_empty_perms rest.reverse
    (fun x hx => hrest x (List.mem_reverse.mp hx))]
  rw [List.foldl_cons, List.foldl_nil, analyze_step_bootstrap c hc]
  simp

/-- C5: for every permission set S, `compute_diff S S` returns a Diff
whose added and removed mappings are both empty. -/
theorem diff_self_empty (S : Finset String) :
    compute_diff S S = { added := [], removed := [] } := by
  unfold compute_diff
  rw [Finset.sdiff_self, (group_by_service_eq_nil_iff ∅).2 rfl]

/-- C6: for all permission sets A and B, `compute_diff A B`'s added
mapping equals `compute_diff B A`'s removed mapping and vice versa. -/
theorem diff_swap (A B : Finset String) :
    (compute_diff A B).added = (compute_diff B A).removed ∧
      (compute_diff A B).removed = (compute_diff B A).added :=
  ⟨rfl, rfl⟩

/-- C7: for all permission sets S1 S2, every permission in a bucket of
`(compute_diff S1 S2).added` lies in S2 minus S1 and every one in
`.removed` lies in S1 minus S2; the permissions of the two mappings are
disjoint; and every element of S2 minus S1 (resp. S1 minus S2) occurs in
exactly one bucket of added (resp. removed), whose key is the substring
before its first dot (the whole string when there is no dot). -/
theorem diff_partition (S1 S2 : Finset String) :
    (∀ kl ∈ (compute_diff S1 S2).added, ∀ p ∈ kl.2, p ∈ S2 \ S1) ∧
    (∀ kl ∈ (compute_diff S1 S2).removed, ∀ p ∈ kl.2, p ∈ S1 \ S2) ∧
    (∀ p : String, (∃ kl ∈ (compute_diff S1 S2).added, p ∈ kl.2) →
      (∃ kl ∈ (compute_diff S1 S2).removed, p ∈ kl.2) → False) ∧
    (∀ p ∈ S2 \ S1, ∃! kl : String × List String,
      kl ∈ (compute_diff S1 S2).added ∧ p ∈ kl.2 ∧ kl.1 = service p) ∧
    (∀ p ∈ S1 \ S2, ∃! kl : String × List String,
      kl ∈ (compute_diff S1 S2).removed ∧ p ∈ kl.2 ∧ kl.1 = service p) := by
  have habucket : ∀ (S : Finset String) (kl : String × List String),
      kl ∈ group_by_service S → ∀ p ∈ kl.2, p ∈ S := by
    rintro S ⟨k, l⟩ hkl p hp
    exact ((mem_bucket_iff S k l p hkl).1 hp).1
  have huniq : ∀ (S : Finset String), ∀ p ∈ S, ∃! kl : String × List String,
      kl ∈ group_by_service S ∧ p ∈ kl.2 ∧ kl.1 = service p := by
    intro S p hp
    refine ⟨(service p, sortedAsc (S.filter (fun q => service q = service p))),
      ⟨?_, ?_, rfl⟩, ?_⟩
    · exact (mem_group_by_service_iff S (service p) _).2
        ⟨Finset.mem_image_of_mem service hp, rfl⟩
    · rw [mem_sortedAsc, Finset.mem_filter]
      exact ⟨hp, rfl⟩
    · rintro ⟨k', l'⟩ ⟨hmem, hp', hk'⟩
      obtain ⟨-, rfl⟩ := (mem_group_by_service_iff S k' l').1 hmem
      cases hk'
      rfl
  refine ⟨?_, ?_, ?_, ?_, ?_⟩
  · exact fun kl hkl p hp => habucket _ kl hkl p hp
  · exact fun kl hkl p hp => habucket _ kl hkl p hp
  · rintro p ⟨kla, hkla, hpa⟩ ⟨klr, hklr, hpr⟩
    have h1 := habucket _ kla hkla p hpa
    have h2 := habucket _ klr hklr p hpr
    rw [Finset.mem_sdiff] at h1 h2
    exact h1.2 h2.1
  · exact fun p hp => huniq _ p hp
  · exact fun p hp => huniq _ p hp

/-- Witness for C7 at concrete sets: the single added permission of
`compute_diff ∅ {"a.x"}` indeed lies in the set difference. -/
theorem diff_partition_witness :
    "a.x" ∈ ({"a.x"} : Finset String) \ (∅ : Finset String) :=
  (diff_partition ∅ {"a.x"}).1 ("a", ["a.x"]) (by decide) "a.x" (by decide)

/-- C1: at every step of the history fold, the history either stays put
or gains exactly the record of the processed commit, and the record is
emitted if and only if the diff of the commit's extracted set against
the carried previous set has a non-empty added or removed mapping AND
(the message contains "Auto-update", OR contains "release"
case-insensitively, OR no record has been emitted earlier in the run,
i.e. the carried history is still empty). -/
theorem history_fold_emits_iff (st : FoldState) (c : Commit) :
    ((analyze_step st c).history = st.history ∨
      (analyze_step st c).history = st.history ++ [commit_record st.prev c]) ∧
    ((analyze_step st c).history = st.history ++ [commit_record st.prev c] ↔
      (((compute_diff st.prev c.perms).added ≠ [] ∨
          (compute_diff st.prev c.perms).removed ≠ []) ∧
        (is_auto_update c.message = true ∨ is_release c.message = true ∨
          st.history = []))) :=
  ⟨analyze_step_history_shape st c, analyze_step_emits_iff_aux st c⟩

/-- Witness for C1: the bootstrap commit of the demonstration scenario
is emitted by the step function. -/
theorem history_fold_emits_iff_witness :
    (analyze_step init_state c2demo).history =
      init_state.history ++ [commit_record init_state.prev c2demo] :=
  (history_fold_emits_iff init_state c2demo).2.mpr ⟨by decide, Or.inr (Or.inr rfl)⟩

/-- C3: the concrete two-commit bootstrap scenario (commit 1 without a
tracked file, commit 2 introducing two storage permissions under a
marker-free message) emits exactly commit 2's record with
`added_count = 2`, `removed_count = 0`, `service_count = 1`; in general
the first commit whose extracted set is non-empty after a walk of
empty-set commits always qualifies, whatever its message; and a commit
whose diff is empty (extracted set equal to the carried previous set)
never qualifies. -/
theorem bootstrap_qualification :
    (analyze_repo [c2demo, c1demo] = [commit_record ∅ c2demo] ∧
      (commit_record ∅ c2demo).added_count = 2 ∧
      (commit_record ∅ c2demo).removed_count = 0 ∧
      (commit_record ∅ c2demo).service_count = 1 ∧
      (commit_record ∅ c2demo).hash = "c2" ∧
      is_auto_update c2demo.message = false ∧ is_release c2demo.message = false) ∧
    (∀ (rest : List Commit) (c : Commit), (∀ x ∈ rest, x.perms = ∅) →
      ¬ c.perms = ∅ → analyze_repo (c :: rest) = [commit_record ∅ c]) ∧
    (∀ (st : FoldState) (c : Commit), c.perms = st.prev →
      (analyze_step st c).history = st.history) := by
  refine ⟨by decide, bootstrap_general, fun st c hc => ?_⟩
  rcases analyze_step_history_shape st c with h | h
  · exact h
  · exfalso
    have hchg := ((analyze_step_emits_iff_aux st c).1 h).1
    exact (has_changes_iff st.prev c.perms).1 hchg hc

/-- Witness for C3: the general bootstrap clause applied to the
demonstration commits. -/
theorem bootstrap_qualification_witness :
    analyze_repo [c2demo, c1demo] = [commit_record ∅ c2demo] :=
  bootstrap_qualification.2.1 [c1demo] c2demo
    (by intro x hx; rw [List.mem_singleton.mp hx]; rfl) (by decide)

/-- C4: for every commit, qualifying or not, the step function carries
that commit's extracted set forward as the new previous set, so the next
commit's record (when emitted) diffs against this commit's true state. -/
theorem prev_always_advances (st : FoldState) (c c2 : Commit) :
    (analyze_step st c).prev = c.perms ∧
    ((analyze_step (analyze_step st c) c2).history = (analyze_step st c).history ∨
      (analyze_step (analyze_step st c) c2).history =
        (analyze_step st c).history ++ [commit_record c.perms c2]) := by
  refine ⟨rfl, ?_⟩
  have h := analyze_step_history_shape (analyze_step st c) c2
  rwa [analyze_step_prev_eq] at h

/-- Witness for C4 at the demonstration commits. -/
theorem prev_always_advances_witness :
    (analyze_step init_state c2demo).prev = c2demo.perms :=
  (prev_always_advances init_state c2demo c1demo).1

/-- C9: the returned history is exactly the reverse of the oldest-first
fold's accumulated record sequence, and each fold step only appends to
that sequence (no record is ever dropped, altered or inserted
elsewhere), so reversing the output reproduces the fold's emission
order. -/
theorem history_newest_first (commits : List Commit) :
    (analyze_repo commits).reverse =
      ((commits.reverse).foldl analyze_step init_state).history ∧
    ∀ (st : FoldState) (c : Commit), ∃ t : List HistoryRecord,
      (analyze_step st c).history = st.history ++ t := by
  refine ⟨by simp [analyze_repo], fun st c => ?_⟩
  rcases analyze_step_history_shape st c with h | h
  · exact ⟨[], by simpa using h⟩
  · exact ⟨[commit_record st.prev c], h⟩

/-- Witness for C9 at the demonstration history. -/
theorem history_newest_first_witness :
    (analyze_repo [c2demo, c1demo]).reverse =
      (([c2demo, c1demo].reverse).foldl analyze_step init_state).history :=
  (history_newest_first [c2demo, c1demo]).1

/-- Witness for C5 at a concrete set. -/
theorem diff_self_empty_witness :
    compute_diff {"a.b"} {"a.b"} = { added := [], removed := [] } :=
  diff_self_empty {"a.b"}

/-- Witness for C6 at concrete sets. -/
theorem diff_swap_witness :
    (compute_diff ∅ {"a.b"}).added = (compute_diff {"a.b"} ∅).removed :=
  (diff_swap ∅ {"a.b"}).1

/-- Counterexample to C2 as stated: the non-empty content
`\x7b"valid_permissions": null\x7d` parses as a JSON object, so the
line-based fallback is not reached, and `set(None)` raises an uncaught
`TypeError` — extraction is not total on non-empty content. -/
theorem extract_raises_on_valid_json :
    ¬ "\x7b\"valid_permissions\": null\x7d" = "" ∧
    parse_permissions (some "\x7b\"valid_permissions\": null\x7d") =
      Except.error PyErr.typeError :=
  ⟨by decide, rfl⟩

/-- C2 (amended): for every content string on which structured (JSON)
parsing fails, the line-based fallback always succeeds, so extraction is
total on such inputs (the empty string is handled even earlier and also
succeeds); totality does not extend to content that parses as JSON,
where `set(...)` can raise. -/
theorem extract_total_on_parse_failure (s : String)
    (h : json_loads s = Except.error ()) :
    parse_permissions (some s) =
      Except.ok (if s = "" then [] else linesFallback s) := by
  simp only [parse_permissions]
  by_cases hs : s = ""
  · rw [if_pos hs, if_pos hs]
  · rw [if_neg hs, if_neg hs, h]

/-- Witness for amended C2: plain non-JSON text extracts via the
fallback. -/
theorem extract_total_on_parse_failure_witness :
    parse_permissions (some "plain text") = Except.ok (linesFallback "plain text") :=
  (extract_total_on_parse_failure "plain text" rfl).trans rfl

/-- C8: the exact ordered extraction policy — absent or empty content
gives the empty set; a JSON object answers from `valid_permissions`,
else `permissions`, else its first list-valued field in key order, else
the empty set; a JSON list is converted to a set; content that fails
structured parsing is split into lines, trimmed, blanks dropped and the
rest taken as a set — in particular `"a.b\nc.d\n\n  \na.b\n"` extracts
to exactly the two-element set of `"a.b"` and `"c.d"`. -/
theorem extraction_policy :
    parse_permissions Option.none = Except.ok [] ∧
    parse_permissions (some "") = Except.ok [] ∧
    (∀ (s : String) (kvs : List (String × PyValue)),
      json_loads s = Except.ok (PyValue.dict kvs) →
      parse_permissions (some s) =
        (match kvs.lookup "valid_permissions" with
          | some v => pySet v
          | Option.none =>
            match kvs.lookup "permissions" with
            | some v => pySet v
            | Option.none =>
              match kvs.find? (fun kv => isPyList kv.2) with
              | some kv => pySet kv.2
              | Option.none => Except.ok [])) ∧
    (∀ (s : String) (xs : List PyValue),
      json_loads s = Except.ok (PyValue.list xs) →
      parse_permissions (some s) = pySet (PyValue.list xs)) ∧
    (∀ s : String, json_loads s = Except.error () →
      parse_permissions (some s) =
        Except.ok (if s = "" then [] else linesFallback s)) ∧
    parse_permissions (some "a.b\nc.d\n\n  \na.b\n") =
      Except.ok [PyValue.str "a.b", PyValue.str "c.d"] := by
  have hempty : json_loads "" = Except.error () := rfl
  refine ⟨rfl, rfl, ?_, ?_, ?_, rfl⟩
  · intro s kvs h
    have hs : ¬ s = "" := by rintro rfl; rw [hempty] at h; cases h
    simp only [parse_permissions]
    rw [if_neg hs, h]
  · intro s xs h
    have hs : ¬ s = "" := by rintro rfl; rw [hempty] at h; cases h
    simp only [parse_permissions]
    rw [if_neg hs, h]
  · intro s h
    by_cases hs : s = ""
    · simp only [parse_permissions]
      rw [if_pos hs, if_pos hs]
    · simp only [parse_permissions]
      rw [if_neg hs, if_neg hs, h]

/-- Witness for C8: the object branch applied to a concrete manifest
with a `permissions` field. -/
theorem extraction_policy_witness :
    parse_permissions (some "\x7b\"permissions\": [\"x.y\"]\x7d") =
      Except.ok [PyValue.str "x.y"] :=
  (extraction_policy.2.2.1 "\x7b\"permissions\": [\"x.y\"]\x7d"
    [("permissions", PyValue.list [PyValue.str "x.y"])] rfl).trans rfl

/-- C10: content that parses successfully as JSON to a value that is
neither an object nor a list extracts to the empty set, rather than
taking the line-based fallback (which only a parse failure triggers). -/
theorem scalar_json_empty (s : String) (v : PyValue)
    (h1 : json_loads s = Except.ok v)
    (h2 : ∀ kvs, ¬ v = PyValue.dict kvs) (h3 : ∀ xs, ¬ v = PyValue.list xs) :
    parse_permissions (some s) = Except.ok [] := by
  have hs : ¬ s = "" := by
    rintro rfl
    rw [show json_loads "" = Except.error () from rfl] at h1
    cases h1
  simp only [parse_permissions]
  rw [if_neg hs, h1]
  cases v with
  | dict kvs => exact absurd rfl (h2 kvs)
  | list xs => exact absurd rfl (h3 xs)
  | none => rfl
  | bool b => rfl
  | int n => rfl
  | float f => rfl
  | str t => rfl

/-- Witness for C10 at the three example contents `"42"`, `"null"` and
a quoted string. -/
theorem scalar_json_empty_witness :
    parse_permissions (some "42") = Except.ok [] ∧
    parse_permissions (some "null") = Except.ok [] ∧
    parse_permissions (some "\"text\"") = Except.ok [] :=
  ⟨scalar_json_empty "42" (PyValue.int 42) rfl
      (fun _ h => PyValue.noConfusion h) (fun _ h => PyValue.noConfusion h),
    scalar_json_empty "null" PyValue.none rfl
      (fun _ h => PyValue.noConfusion h) (fun _ h => PyValue.noConfusion h),
    scalar_json_empty "\"text\"" (PyValue.str "text") rfl
      (fun _ h => PyValue.noConfusion h) (fun _ h => PyValue.noConfusion h)⟩
